import Mathlib

/-!
Shallow embedding of the u-fret crawler pipeline (src/main.py).

The crawler keeps three URL-keyed stores (`db_general`, `db_video`,
`db_perm`), a followed-artists list and a favorite-URLs list.  A crawl
cycle parses listing-page items into song records, routes them
(piano → permanent, video → video pipeline, rest → general pipeline,
followed artists additionally → permanent), deduplicates the
concatenation new ++ old by (title, artist), truncates to the cap
(50 general / 20 video) and rebuilds the store keyed by URL.

Python dicts are modelled as insertion-ordered association lists
(`Dict`); dict assignment is `dictInsert` (overwrite in place, append
when the key is new).  I/O (HTTP fetch, BeautifulSoup, the clock,
`urljoin`) is abstracted into explicit parameters: `fetched : Option _`
is the outcome of the network fetch, `today` the formatted date, and
`join` the `urljoin` function.
-/

namespace Ufret

/-- A song record, the dict built by `parse_song_item` (src/main.py line 97). -/
structure Song where
  title : String
  artist : String
  url : String
  tags : List String
  is_piano : Bool
  is_video : Bool
  discovered_at : String
deriving DecidableEq

/-- The dedup key of `deduplicate_songs` (line 105): `(s["title"], s["artist"])`. -/
def keyOf (s : Song) : String × String := (s.title, s.artist)

/-- `UfretCrawler.deduplicate_songs` (lines 100-109): a loop over the input
with a `seen` set of (title, artist) keys, appending every record whose key
has not been seen to `unique`.  The loop is a left fold over the pair
(seen, unique). -/
def deduplicate_songs (songs : List Song) : List Song :=
  (songs.foldl
    (fun (st : List (String × String) × List Song) s =>
      if keyOf s ∈ st.1 then st
      else (keyOf s :: st.1, st.2 ++ [s]))
    ([], [])).2

/-- Recursive form of the `deduplicate_songs` loop, with the `seen` set explicit. -/
def dedupGo (seen : List (String × String)) : List Song → List Song
  | [] => []
  | s :: rest =>
    if keyOf s ∈ seen then dedupGo seen rest
    else s :: dedupGo (keyOf s :: seen) rest

/-- A Python dict as an insertion-ordered association list. -/
abbrev Dict := List (String × Song)

/-- `d.values()` of a Python dict. -/
def values (d : Dict) : List Song := d.map Prod.snd

/-- The key list of a Python dict. -/
def dictKeys (d : Dict) : List String := d.map Prod.fst

/-- Python `d[k] = v`: overwrite in place when the key exists, append otherwise. -/
def dictInsert (d : Dict) (k : String) (v : Song) : Dict :=
  if d.any (fun p => p.1 == k) then d.map (fun p => if p.1 == k then (k, v) else p)
  else d ++ [(k, v)]

/-- The dict comprehension `{s["url"]: s for s in l}` (lines 146 and 151). -/
def dictOfList (ss : List Song) : Dict :=
  ss.foldl (fun d s => dictInsert d s.url s) []

/-- Python `d[k]` / `d.get(k)` on the association-list model. -/
def dictLookup (d : Dict) (k : String) : Option Song :=
  (d.find? (fun p => p.1 == k)).map Prod.snd

/-- Python `str.strip()` on a character list: drop leading and trailing
whitespace. -/
def stripChars (cs : List Char) : List Char :=
  ((cs.dropWhile Char.isWhitespace).reverse.dropWhile Char.isWhitespace).reverse

/-- Python `str.strip()`. -/
def pyStrip (s : String) : String := String.mk (stripChars s.data)

/-- Python `str.split(sep)` on character lists, scanning left to right for
non-overlapping separator occurrences.  The counter holds separator
characters still to be consumed, keeping the recursion structural. -/
def splitSepGo (sep : List Char) : Nat → List Char → List Char → List (List Char)
  | _ + 1, [], acc => [acc.reverse]
  | k + 1, _ :: rest, acc => splitSepGo sep k rest acc
  | 0, [], acc => [acc.reverse]
  | 0, c :: rest, acc =>
    if sep.isPrefixOf (c :: rest) then
      acc.reverse :: splitSepGo sep (sep.length - 1) rest []
    else splitSepGo sep 0 rest (c :: acc)

/-- Python `str.split(sep)` for a non-empty separator. -/
def pySplit (sep : String) (s : String) : List String :=
  (splitSepGo sep.data 0 s.data []).map String.mk

/-- Join a list of strings with a separator, as `"|||".join(...)` inside
`get_text("|||", strip=True)`. -/
def joinSep (sep : String) : List String → String
  | [] => ""
  | [p] => p
  | p :: rest => p ++ sep ++ joinSep sep rest

/-- Python `needle in hay` on lists of characters (substring containment). -/
def charsContain (hay needle : List Char) : Bool :=
  if needle.isPrefixOf hay then true
  else
    match hay with
    | [] => false
    | _ :: rest => charsContain rest needle

/-- Python `needle in hay` for strings. -/
def containsSubstr (hay needle : String) : Bool :=
  charsContain hay.data needle.data

/-- The follow test (line 139): `any(f.lower() in s["artist"].lower() for f in followed)`. -/
def isFollowed (followed : List String) (s : Song) : Bool :=
  followed.any (fun f => containsSubstr s.artist.toLower f.toLower)

/-- The merge of one pipeline store (lines 144-146 and 149-151): concatenate
new candidates before the existing store values, deduplicate by
(title, artist), truncate to the cap, and rebuild the dict keyed by URL. -/
def mergeStore (newSongs : List Song) (stored : Dict) (cap : Nat) : Dict :=
  dictOfList ((deduplicate_songs (newSongs ++ values stored)).take cap)

/-- The in-memory state of `UfretCrawler`. -/
structure CrawlerState where
  followed_artists : List String
  favorite_urls : List String
  db_general : Dict
  db_video : Dict
  db_perm : Dict
deriving DecidableEq

/-- The persisted files (`followed_artists.txt`, `favorites.txt` and the
three JSON stores). -/
structure Disk where
  artists_file : List String
  favorites_file : List String
  general_file : Dict
  video_file : Dict
  perm_file : Dict
deriving DecidableEq

/-- The routing loop of `scrape_all` (lines 129-140): piano records go
straight to `db_perm`; video records are queued for the video pipeline;
the rest are queued for the general pipeline and, when the artist matches
a followed pattern, also upserted into `db_perm`. -/
def route (followed : List String) (perm : Dict) (scraped : List Song) :
    List Song × List Song × Dict :=
  scraped.foldl
    (fun acc s =>
      if s.is_piano then (acc.1, acc.2.1, dictInsert acc.2.2 s.url s)
      else if s.is_video then (acc.1, acc.2.1 ++ [s], acc.2.2)
      else (acc.1 ++ [s], acc.2.1,
        if isFollowed followed s then dictInsert acc.2.2 s.url s else acc.2.2))
    ([], [], perm)

/-- The lock-held merge block of `scrape_all` (lines 129-154): route the
scraped records, then merge both capped pipelines and keep the updated
permanent store. -/
def mergeCycle (st : CrawlerState) (scraped : List Song) : CrawlerState :=
  let r := route st.followed_artists st.db_perm scraped
  { st with
    db_general := mergeStore r.1 st.db_general 50
    db_video := mergeStore r.2.1 st.db_video 20
    db_perm := r.2.2 }

/-! ### The extractor `parse_song_item` (lines 74-98)

The BeautifulSoup item is modelled by what the extractor reads from it:
its tag name, its own anchor data (meaningful when the item itself is an
`<a>`), the result of `item.find("a")` otherwise, the raw texts of its
`span.badge` descendants, and the raw text of the small-font artist span. -/

/-- An `<a>` element: its `href` attribute and its descendant text nodes. -/
structure Anchor where
  href : String
  strings : List String
deriving DecidableEq

/-- A listing-page item as seen by `parse_song_item`. -/
structure Item where
  name : String
  selfAnchor : Anchor
  foundAnchor : Option Anchor
  badgeTexts : List String
  artistSpanText : Option String
deriving DecidableEq

/-- Line 76: `link_tag = item if item.name == "a" else item.find("a")`. -/
def itemLink (it : Item) : Option Anchor :=
  if it.name = "a" then some it.selfAnchor else it.foundAnchor

/-- Line 80: `badges = [t.text.strip() for t in item.select("span.badge")]`. -/
def itemBadges (it : Item) : List String := it.badgeTexts.map pyStrip

/-- Lines 81-83: artist from the small-font span (default "Unknown"),
with a leading hyphen stripped: `if artist.startswith("-"): artist =
artist[1:].strip()`. -/
def itemArtist (it : Item) : String :=
  let a := match it.artistSpanText with
    | some t => pyStrip t
    | none => "Unknown"
  match a.data with
  | '-' :: rest => pyStrip (String.mk rest)
  | _ => a

/-- Lines 85-86: `get_text("|||", strip=True)` joins the stripped non-empty
text nodes with the separator; the result is split on the separator, each
part stripped, empty parts dropped. -/
def anchorParts (link : Anchor) : List String :=
  let full_text := joinSep "|||" ((link.strings.map pyStrip).filter (fun p => p != ""))
  ((pySplit "|||" full_text).map pyStrip).filter (fun p => p != "")

/-- Line 87: drop parts equal to the artist, to a badge, to "U-リク" or "-",
or containing "追加" or "NEW". -/
def itemCleanParts (it : Item) : List String :=
  match itemLink it with
  | none => []
  | some link =>
    let artist := itemArtist it
    let badges := itemBadges it
    (anchorParts link).filter (fun p =>
      p != artist && !(badges.contains p) && !(containsSubstr p "追加") &&
      !(containsSubstr p "NEW") && p != "U-リク" && p != "-")

/-- The date alternative `\d{4}/\d{2}/\d{2}` of the cleaning regex (line 90):
match length 10 when the next ten characters are 4 digits, '/', 2 digits,
'/', 2 digits. -/
def matchDate (cs : List Char) : Option Nat :=
  match cs with
  | a :: b :: c :: d :: s1 :: e :: f :: s2 :: g :: h :: _ =>
    if a.isDigit && b.isDigit && c.isDigit && d.isDigit && s1 == '/' &&
       e.isDigit && f.isDigit && s2 == '/' && g.isDigit && h.isDigit
    then some 10 else none
  | _ => none

/-- The literal alternatives of the cleaning regex (line 90), in pattern order. -/
def cleanLiterals : List (List Char) :=
  ["U-リク".data, "NEW".data, "追加".data, "初心者".data, "動画プラス".data,
   "ピアノソロ".data, "ソロ".data, "初級".data]

/-- One match attempt of the cleaning regex at the head of `cs`: alternatives
are tried left to right, the date pattern last; returns the match length. -/
def matchAlt (cs : List Char) : Option Nat :=
  match cleanLiterals.find? (fun lit => lit.isPrefixOf cs) with
  | some lit => some lit.length
  | none => matchDate cs

/-- `re.sub(clean_pattern, "", ·)` (line 91): scan left to right, delete each
non-overlapping match, keep unmatched characters.  The first argument counts
characters of the current match still to be consumed, so the recursion is
structural on the character list. -/
def reSubGo : Nat → List Char → List Char
  | _ + 1, [] => []
  | k + 1, _ :: rest => reSubGo k rest
  | 0, [] => []
  | 0, c :: rest =>
    match matchAlt (c :: rest) with
    | some n => reSubGo (n - 1) rest
    | none => c :: reSubGo 0 rest

/-- String version of the regex cleaning. -/
def reSubClean (s : String) : String := String.mk (reSubGo 0 s.data)

/-- Python `.lstrip("-")`: drop every leading hyphen. -/
def lstripDash (s : String) : String := String.mk (s.data.dropWhile (fun c => c == '-'))

/-- Line 91: `re.sub(clean_pattern, "", raw_title).strip().lstrip("-").strip()`. -/
def cleanTitle (raw : String) : String := pyStrip (lstripDash (pyStrip (reSubClean raw)))

/-- Lines 89-92: raw title is the first clean part (default "Unknown"),
cleaned; an empty result becomes the sentinel "Unknown Song". -/
def titleOf (it : Item) : String :=
  let raw_title := (itemCleanParts it).headD "Unknown"
  let t := cleanTitle raw_title
  if t = "" then "Unknown Song" else t

/-- The listing URL `UfretCrawler.NEW_URL` (line 22). -/
def NEW_URL : String := "https://www.ufret.jp/new.php"

/-- `UfretCrawler.parse_song_item` (lines 74-98). `join` abstracts
`urllib.parse.urljoin` and `today` the formatted `datetime.now()`. -/
def parse_song_item (join : String → String → String) (today : String)
    (baseUrl : String) (it : Item) : Option Song :=
  match itemLink it with
  | none => none
  | some link =>
    let badges := itemBadges it
    some {
      title := titleOf it
      artist := itemArtist it
      url := join baseUrl link.href
      tags := badges
      is_piano := badges.any (fun t => containsSubstr t "ピアノ")
      is_video := badges.any (fun t => containsSubstr t "動画")
      discovered_at := today }

/-- `UfretCrawler.scrape_all` (lines 111-155).  The followed/favorite lists
are refreshed from disk first; `fetched = none` models a failed fetch of the
listing page (`if not html: return []`), in which case nothing else happens.
On success at most 100 items are parsed in page order and the lock-held
merge block runs; the three stores are then persisted. -/
def scrape_all (join : String → String → String) (today : String)
    (st : CrawlerState) (disk : Disk) (fetched : Option (List Item)) :
    CrawlerState × Disk :=
  let st1 := { st with followed_artists := disk.artists_file,
                       favorite_urls := disk.favorites_file }
  match fetched with
  | none => (st1, disk)
  | some items =>
    let scraped := (items.take 100).filterMap (parse_song_item join today NEW_URL)
    let st2 := mergeCycle st1 scraped
    (st2, { disk with general_file := st2.db_general,
                      video_file := st2.db_video,
                      perm_file := st2.db_perm })

/-- The `<h1>` heading of a detail page as read by `add_url_manually`:
the bold span, the direct text node, and the font-size span. -/
structure H1Model where
  boldSpan : Option String
  directText : Option String
  fontSizeSpan : Option String
deriving DecidableEq

/-- A detail page as seen by `add_url_manually`. -/
structure Page where
  h1 : Option H1Model
  badgeTexts : List String
deriving DecidableEq

/-- `UfretCrawler.add_url_manually` (lines 157-191). `fetched = none` models
a failed fetch (no state change).  On success the song is built from the
heading and badges, the URL is appended to the favorites list, the song is
upserted into `db_perm` only when the URL is not already a key, and the
favorites file and permanent store are persisted. -/
def add_url_manually (today : String) (st : CrawlerState) (disk : Disk)
    (url : String) (fetched : Option Page) : Option Song × CrawlerState × Disk :=
  match fetched with
  | none => (none, st, disk)
  | some page =>
    let ta : String × String :=
      match page.h1 with
      | some h1 =>
        (match h1.boldSpan with
         | some t => pyStrip t
         | none => pyStrip (h1.directText.getD ""),
         match h1.fontSizeSpan with
         | some a => pyStrip a
         | none => "Unknown")
      | none => ("Unknown", "Unknown")
    let badges := page.badgeTexts.map pyStrip
    let song : Song := {
      title := ta.1
      artist := ta.2
      url := url
      tags := badges
      is_piano := badges.any (fun t => containsSubstr t "ピアノ")
      is_video := badges.any (fun t => containsSubstr t "動画")
      discovered_at := today }
    let favs := st.favorite_urls ++ [url]
    let perm := if st.db_perm.any (fun p => p.1 == url) then st.db_perm
                else dictInsert st.db_perm url song
    (some song,
     { st with favorite_urls := favs, db_perm := perm },
     { disk with favorites_file := favs, perm_file := perm })

/-- Python `{**a, **b}` extended with the entries of `e` in order. -/
def dictExtend (d : Dict) (e : Dict) : Dict :=
  e.foldl (fun acc p => dictInsert acc p.1 p.2) d

/-- Line 196: `all_known = {**self.db_general, **self.db_video, **self.db_perm}`. -/
def all_known (st : CrawlerState) : Dict :=
  dictExtend (dictExtend (dictExtend [] st.db_general) st.db_video) st.db_perm

/-- The five sequences returned by `get_data_for_ui`. -/
structure UIData where
  general : List Song
  video : List Song
  piano : List Song
  followed : List Song
  favorites : List Song
deriving DecidableEq

/-- `UfretCrawler.get_data_for_ui` (lines 193-208). -/
def get_data_for_ui (st : CrawlerState) : UIData :=
  let ak := all_known st
  { general := values st.db_general
    video := values st.db_video
    piano := deduplicate_songs ((values st.db_perm).filter (fun s => s.is_piano))
    followed := (deduplicate_songs ((values st.db_perm).filter (isFollowed st.followed_artists))).mergeSort
      (fun a b => a.artist ≤ b.artist)
    favorites := deduplicate_songs ((values ak).filter (fun s => st.favorite_urls.contains s.url)) }

/-! ### Auxiliary definitions for the proofs -/

/-- The `seen` set after folding the body of the `deduplicate_songs` loop
over `songs`, starting from `seen`. -/
def seenUpd (seen : List (String × String)) (songs : List Song) : List (String × String) :=
  songs.foldl (fun a s => if keyOf s ∈ a then a else keyOf s :: a) seen

/-- Modelled from the spec: "stable, first-seen-wins on key (title, artist),
preserves input order of survivors" — keep each first occurrence, drop every
later record with an already-seen key. -/
def firstSeenSpec : List Song → List Song
  | [] => []
  | s :: rest => s :: firstSeenSpec (rest.filter (fun t => !(decide (keyOf t = keyOf s))))
termination_by l => l.length
decreasing_by
  simp only [List.length_cons]
  exact Nat.lt_succ_of_le (List.length_filter_le _ _)

/-- The permanent-store component of the routing loop (lines 129-140). -/
def routePerm (followed : List String) (perm : Dict) (scraped : List Song) : Dict :=
  scraped.foldl
    (fun p s =>
      if s.is_piano then dictInsert p s.url s
      else if s.is_video then p
      else if isFollowed followed s then dictInsert p s.url s else p)
    perm

/-! ### Concrete instances used to evaluate the definitions -/

/-- A plain record with no tags, as `parse_song_item` would build for an
item without badges. -/
def plainSong (t a u : String) : Song :=
  { title := t, artist := a, url := u, tags := [], is_piano := false,
    is_video := false, discovered_at := "2026-01-01" }

/-- The i-th of 51 fresh general records with pairwise distinct titles. -/
def cxSong (i : Nat) : Song := plainSong (toString i) "B" ("u" ++ toString i)

/-- 51 fresh general records (within the 100-item scrape cap). -/
def cxNewList : List Song := (List.range 51).map cxSong

/-- The fresh record colliding with the stored one, 51st in scrape order. -/
def cxNew : Song := cxSong 50

/-- A stored record sharing (title, artist) with `cxNew` but not its URL. -/
def cxOld : Song := plainSong "50" "B" "uold"

/-- A general store holding only `cxOld`. -/
def cxStore : Dict := [("uold", cxOld)]

/-- A single fresh record colliding with `c3wOld` on (title, artist). -/
def c3wNew : Song := plainSong "T" "A" "un"

/-- A stored record with the same (title, artist) as `c3wNew`. -/
def c3wOld : Song := plainSong "T" "A" "uo"

/-- A general store holding only `c3wOld`. -/
def c3wStore : Dict := [("uo", c3wOld)]

/-- A piano-tagged scraped record. -/
def w4Song : Song :=
  { title := "P", artist := "A", url := "up", tags := ["ピアノソロ"],
    is_piano := true, is_video := false, discovered_at := "2026-01-01" }

/-- A crawler state with empty stores. -/
def w4State : CrawlerState :=
  { followed_artists := [], favorite_urls := [], db_general := [],
    db_video := [], db_perm := [] }

/-- A crawler state whose favorites list already holds "u". -/
def c2State : CrawlerState :=
  { followed_artists := [], favorite_urls := ["u"], db_general := [],
    db_video := [], db_perm := [] }

/-- A disk matching `c2State`. -/
def c2Disk : Disk :=
  { artists_file := [], favorites_file := ["u"], general_file := [],
    video_file := [], perm_file := [] }

/-- A trivial detail page with no heading and no badges. -/
def c2Page : Page := { h1 := none, badgeTexts := [] }

/-- The i-th of 50 stored records with pairwise distinct keys and URLs. -/
def w7Song (i : Nat) : Song := plainSong ("t" ++ toString i) "A" ("u" ++ toString i)

/-- A general store holding 50 distinct records. -/
def w7Dict : Dict := (List.range 50).map (fun i => ("u" ++ toString i, w7Song i))

/-- A fresh record colliding with none of the 50 stored ones. -/
def w7New : Song := plainSong "tnew" "A" "unew"

/-- Three distinct records under the same URL, one per store. -/
def w9A : Song := plainSong "GA" "g" "u"

/-- See `w9A`. -/
def w9B : Song := plainSong "GB" "g" "u"

/-- See `w9A`. -/
def w9C : Song := plainSong "GC" "g" "u"

/-- A state whose three stores each hold a different record under URL "u". -/
def w9State : CrawlerState :=
  { followed_artists := [], favorite_urls := ["u"],
    db_general := [("u", w9A)], db_video := [("u", w9B)], db_perm := [("u", w9C)] }

/-- A concrete stand-in for `urljoin`. -/
def w10Join : String → String → String := fun _ h => h

/-- A well-formed listing item that parses successfully. -/
def w10Item : Item :=
  { name := "a", selfAnchor := { href := "x", strings := ["Song Title", "Artist"] },
    foundAnchor := none, badgeTexts := [], artistSpanText := some "Artist" }

/-- The record `parse_song_item` extracts from `w10Item`. -/
def w10Song : Song :=
  { title := "Song Title", artist := "Artist", url := "x", tags := [],
    is_piano := false, is_video := false, discovered_at := "2026-01-01" }

/-! ### Lemmas about `deduplicate_songs` -/

lemma dedup_foldl_eq (songs : List Song) (seen : List (String × String)) (out : List Song) :
    songs.foldl
      (fun (st : List (String × String) × List Song) s =>
        if keyOf s ∈ st.1 then st else (keyOf s :: st.1, st.2 ++ [s]))
      (seen, out) = (seenUpd seen songs, out ++ dedupGo seen songs) := by
  induction songs generalizing seen out with
  | nil => simp [seenUpd, dedupGo]
  | cons s rest ih =>
    by_cases h : keyOf s ∈ seen
    · simp [seenUpd, dedupGo, h, ih]
    · simp [seenUpd, dedupGo, h, ih]

lemma deduplicate_songs_eq_go (songs : List Song) :
    deduplicate_songs songs = dedupGo [] songs := by
  unfold deduplicate_songs
  rw [dedup_foldl_eq]
  rfl

lemma seenUpd_nil (seen : List (String × String)) : seenUpd seen [] = seen := rfl

lemma seenUpd_cons (seen : List (String × String)) (s : Song) (rest : List Song) :
    seenUpd seen (s :: rest) =
      seenUpd (if keyOf s ∈ seen then seen else keyOf s :: seen) rest := rfl

lemma mem_seenUpd_left {a : String × String} :
    ∀ (songs : List Song) (seen : List (String × String)), a ∈ seen → a ∈ seenUpd seen songs := by
  intro songs
  induction songs with
  | nil => intro seen h; exact h
  | cons s rest ih =>
    intro seen h
    rw [seenUpd_cons]
    by_cases hk : keyOf s ∈ seen
    · rw [if_pos hk]; exact ih seen h
    · rw [if_neg hk]; exact ih _ (List.mem_cons_of_mem _ h)

lemma mem_seenUpd_of_mem {x : Song} {songs : List Song}
    (h : x ∈ songs) : ∀ (seen : List (String × String)), keyOf x ∈ seenUpd seen songs := by
  induction songs with
  | nil => cases h
  | cons s rest ih =>
    intro seen
    rw [seenUpd_cons]
    rcases List.mem_cons.mp h with rfl | hrest
    · by_cases hk : keyOf x ∈ seen
      · rw [if_pos hk]; exact mem_seenUpd_left rest seen hk
      · rw [if_neg hk]; exact mem_seenUpd_left rest _ (List.mem_cons_self _ _)
    · by_cases hk : keyOf s ∈ seen
      · rw [if_pos hk]; exact ih hrest seen
      · rw [if_neg hk]; exact ih hrest _

lemma mem_of_mem_dedupGo {x : Song} {xs : List Song} {seen : List (String × String)}
    (h : x ∈ dedupGo seen xs) : x ∈ xs := by
  induction xs generalizing seen with
  | nil => simp [dedupGo] at h
  | cons s rest ih =>
    by_cases hk : keyOf s ∈ seen
    · simp only [dedupGo, if_pos hk] at h
      exact List.mem_cons_of_mem _ (ih h)
    · simp only [dedupGo, if_neg hk, List.mem_cons] at h
      rcases h with rfl | h
      · exact List.mem_cons_self _ _
      · exact List.mem_cons_of_mem _ (ih h)

lemma key_not_seen_of_mem_dedupGo {x : Song} {xs : List Song} {seen : List (String × String)}
    (h : x ∈ dedupGo seen xs) : keyOf x ∉ seen := by
  induction xs generalizing seen with
  | nil => simp [dedupGo] at h
  | cons s rest ih =>
    by_cases hk : keyOf s ∈ seen
    · simp only [dedupGo, if_pos hk] at h
      exact ih h
    · simp only [dedupGo, if_neg hk, List.mem_cons] at h
      rcases h with rfl | h
      · exact hk
      · intro hmem
        exact ih h (List.mem_cons_of_mem _ hmem)

lemma pairwise_keys_dedupGo (xs : List Song) (seen : List (String × String)) :
    (dedupGo seen xs).Pairwise (fun a b => keyOf a ≠ keyOf b) := by
  induction xs generalizing seen with
  | nil => simp [dedupGo]
  | cons s rest ih =>
    by_cases hk : keyOf s ∈ seen
    · simpa [dedupGo, hk] using ih seen
    · simp only [dedupGo, if_neg hk]
      refine List.Pairwise.cons ?_ (ih _)
      intro b hb heq
      exact key_not_seen_of_mem_dedupGo hb (heq ▸ List.mem_cons_self _ _)

lemma eq_of_mem_dedupGo_key {x y : Song} {xs : List Song} {seen : List (String × String)}
    (hx : x ∈ dedupGo seen xs) (hy : y ∈ dedupGo seen xs) (hk : keyOf x = keyOf y) :
    x = y := by
  induction xs generalizing seen with
  | nil => simp [dedupGo] at hx
  | cons s rest ih =>
    by_cases hs : keyOf s ∈ seen
    · simp only [dedupGo, if_pos hs] at hx hy
      exact ih hx hy
    · simp only [dedupGo, if_neg hs, List.mem_cons] at hx hy
      rcases hx with rfl | hx <;> rcases hy with rfl | hy
      · rfl
      · exact absurd (hk ▸ List.mem_cons_self _ _)
          (key_not_seen_of_mem_dedupGo hy)
      · exact absurd (hk ▸ List.mem_cons_self _ _)
          (key_not_seen_of_mem_dedupGo hx)
      · exact ih hx hy

lemma dedupGo_append (xs ys : List Song) (seen : List (String × String)) :
    dedupGo seen (xs ++ ys) = dedupGo seen xs ++ dedupGo (seenUpd seen xs) ys := by
  induction xs generalizing seen with
  | nil => simp [dedupGo, seenUpd]
  | cons s rest ih =>
    by_cases hk : keyOf s ∈ seen
    · simp [dedupGo, seenUpd, hk, ih]
    · simp [dedupGo, seenUpd, hk, ih]

lemma length_dedupGo_le (xs : List Song) (seen : List (String × String)) :
    (dedupGo seen xs).length ≤ xs.length := by
  induction xs generalizing seen with
  | nil => simp [dedupGo]
  | cons s rest ih =>
    by_cases hk : keyOf s ∈ seen
    · simp only [dedupGo, if_pos hk, List.length_cons]
      exact Nat.le_succ_of_le (ih seen)
    · simp only [dedupGo, if_neg hk, List.length_cons]
      exact Nat.succ_le_succ (ih _)

lemma first_mem_dedupGo {x : Song} {xs : List Song} {seen : List (String × String)}
    (hseen : keyOf x ∉ seen) (hx : x ∈ xs)
    (huniq : ∀ y ∈ xs, keyOf y = keyOf x → y = x) : x ∈ dedupGo seen xs := by
  induction xs generalizing seen with
  | nil => cases hx
  | cons s rest ih =>
    rcases List.mem_cons.mp hx with rfl | hrest
    · simp only [dedupGo, if_neg hseen]
      exact List.mem_cons_self _ _
    · by_cases hk : keyOf s ∈ seen
      · simp only [dedupGo, if_pos hk]
        exact ih hseen hrest (fun y hy => huniq y (List.mem_cons_of_mem _ hy))
      · simp only [dedupGo, if_neg hk]
        by_cases hxs : x = s
        · exact hxs ▸ List.mem_cons_self _ _
        · refine List.mem_cons_of_mem _ (ih ?_ hrest
            (fun y hy => huniq y (List.mem_cons_of_mem _ hy)))
          intro hmem
          rcases List.mem_cons.mp hmem with hks | hks
          · exact hxs (huniq s (List.mem_cons_self _ _) hks.symm).symm
          · exact hseen hks

lemma dedupGo_eq_self {xs : List Song} {seen : List (String × String)}
    (h1 : ∀ y ∈ xs, keyOf y ∉ seen)
    (h2 : xs.Pairwise (fun a b => keyOf a ≠ keyOf b)) : dedupGo seen xs = xs := by
  induction xs generalizing seen with
  | nil => rfl
  | cons s rest ih =>
    have hs : keyOf s ∉ seen := h1 s (List.mem_cons_self _ _)
    simp only [dedupGo, if_neg hs, List.cons.injEq, true_and]
    refine ih ?_ (List.Pairwise.of_cons h2)
    intro y hy hmem
    rcases List.mem_cons.mp hmem with hk | hk
    · exact (List.rel_of_pairwise_cons h2 hy) hk.symm
    · exact h1 y (List.mem_cons_of_mem _ hy) hk

lemma dedupGo_eq_firstSeen :
    ∀ (xs : List Song) (seen : List (String × String)),
      dedupGo seen xs = firstSeenSpec (xs.filter (fun s => !(decide (keyOf s ∈ seen)))) := by
  intro xs
  induction xs with
  | nil => intro seen; simp [dedupGo, firstSeenSpec]
  | cons s rest ih =>
    intro seen
    by_cases hk : keyOf s ∈ seen
    · simp only [dedupGo, if_pos hk]
      have hdrop : List.filter (fun t => !decide (keyOf t ∈ seen)) (s :: rest) =
          List.filter (fun t => !decide (keyOf t ∈ seen)) rest := by
        simp [List.filter_cons, hk]
      rw [hdrop]
      exact ih seen
    · simp only [dedupGo, if_neg hk]
      have hkeep : List.filter (fun t => !decide (keyOf t ∈ seen)) (s :: rest) =
          s :: List.filter (fun t => !decide (keyOf t ∈ seen)) rest := by
        simp [List.filter_cons, hk]
      rw [hkeep]
      simp only [firstSeenSpec, List.filter_filter]
      have hfc : ∀ t ∈ rest,
          ((!(decide (keyOf t = keyOf s))) && (!(decide (keyOf t ∈ seen)))) =
          (!(decide (keyOf t ∈ keyOf s :: seen))) := by
        intro t _
        by_cases h1 : keyOf t = keyOf s <;> by_cases h2 : keyOf t ∈ seen <;> simp [h1, h2]
      rw [List.filter_congr hfc]
      exact congrArg _ (ih (keyOf s :: seen))

/-! ### Lemmas about the dict model -/

lemma length_dictInsert_le (d : Dict) (k : String) (v : Song) :
    (dictInsert d k v).length ≤ d.length + 1 := by
  unfold dictInsert
  by_cases h : d.any (fun p => p.1 == k)
  · rw [if_pos h, List.length_map]
    exact Nat.le_succ _
  · rw [if_neg h, List.length_append]
    simp

lemma length_dictOfList_aux :
    ∀ (ss : List Song) (d : Dict),
      (ss.foldl (fun d s => dictInsert d s.url s) d).length ≤ d.length + ss.length := by
  intro ss
  induction ss with
  | nil => intro d; simp
  | cons s rest ih =>
    intro d
    have h1 := ih (dictInsert d s.url s)
    have h2 := length_dictInsert_le d s.url s
    simp only [List.foldl_cons, List.length_cons]
    omega

lemma length_dictOfList_le (ss : List Song) : (dictOfList ss).length ≤ ss.length := by
  have := length_dictOfList_aux ss []
  simpa [dictOfList] using this

lemma mem_dictInsert_elim {p : String × Song} {d : Dict} {k : String} {v : Song}
    (h : p ∈ dictInsert d k v) : p ∈ d ∨ p = (k, v) := by
  unfold dictInsert at h
  by_cases hc : d.any (fun q => q.1 == k)
  · rw [if_pos hc] at h
    rcases List.mem_map.mp h with ⟨q, hq, hfq⟩
    by_cases hqk : (q.1 == k) = true
    · right
      rw [if_pos hqk] at hfq
      exact hfq.symm
    · left
      rw [if_neg hqk] at hfq
      exact hfq ▸ hq
  · rw [if_neg hc] at h
    rcases List.mem_append.mp h with h | h
    · exact Or.inl h
    · exact Or.inr (List.mem_singleton.mp h)

lemma mem_dictInsert_self (d : Dict) (k : String) (v : Song) : (k, v) ∈ dictInsert d k v := by
  unfold dictInsert
  by_cases hc : d.any (fun q => q.1 == k)
  · rw [if_pos hc]
    rcases List.any_eq_true.mp hc with ⟨q, hq, hqk⟩
    exact List.mem_map.mpr ⟨q, hq, by rw [if_pos hqk]⟩
  · rw [if_neg hc]
    exact List.mem_append_right _ (List.mem_singleton.mpr rfl)

lemma mem_dictInsert_of_ne {u : String} {x : Song} {d : Dict} {k : String} {v : Song}
    (h : (u, x) ∈ d) (hne : u ≠ k) : (u, x) ∈ dictInsert d k v := by
  unfold dictInsert
  by_cases hc : d.any (fun q => q.1 == k)
  · rw [if_pos hc]
    refine List.mem_map.mpr ⟨(u, x), h, ?_⟩
    have : ((u, x).1 == k) = false := by simpa using hne
    rw [if_neg (by simp [this])]
  · rw [if_neg hc]
    exact List.mem_append_left _ h

lemma foldl_ins_mem :
    ∀ (ss : List Song) (d : Dict) (p : String × Song),
      p ∈ ss.foldl (fun d s => dictInsert d s.url s) d →
      p ∈ d ∨ (p.1 = p.2.url ∧ p.2 ∈ ss) := by
  intro ss
  induction ss with
  | nil => intro d p h; exact Or.inl h
  | cons s rest ih =>
    intro d p h
    rcases ih _ p h with h1 | h1
    · rcases mem_dictInsert_elim h1 with h2 | h2
      · exact Or.inl h2
      · right
        rw [h2]
        exact ⟨rfl, List.mem_cons_self _ _⟩
    · exact Or.inr ⟨h1.1, List.mem_cons_of_mem _ h1.2⟩

lemma values_dictOfList_subset {ss : List Song} : values (dictOfList ss) ⊆ ss := by
  intro x hx
  rcases List.mem_map.mp hx with ⟨p, hp, rfl⟩
  rcases foldl_ins_mem ss [] p hp with h | h
  · cases h
  · exact h.2

lemma dictOfList_append (ss : List Song) (s : Song) :
    dictOfList (ss ++ [s]) = dictInsert (dictOfList ss) s.url s := by
  unfold dictOfList
  rw [List.foldl_append]
  rfl

lemma entry_mem_dictOfList {x : Song} :
    ∀ {ss : List Song}, x ∈ ss → (∀ y ∈ ss, y.url = x.url → y = x) →
      (x.url, x) ∈ dictOfList ss := by
  intro ss
  induction ss using List.reverseRecOn with
  | nil => intro h; cases h
  | append_singleton ss s ih =>
    intro hx hu
    rw [dictOfList_append]
    by_cases hsx : s = x
    · subst hsx
      exact mem_dictInsert_self _ _ _
    · have hxss : x ∈ ss := by
        rcases List.mem_append.mp hx with h | h
        · exact h
        · exact absurd (List.mem_singleton.mp h).symm hsx
      have hne : x.url ≠ s.url := by
        intro he
        exact hsx (hu s (List.mem_append_right _ (List.mem_singleton.mpr rfl)) he.symm)
      exact mem_dictInsert_of_ne
        (ih hxss (fun y hy => hu y (List.mem_append_left _ hy))) hne

lemma mem_values_dictOfList {x : Song} {ss : List Song} (hx : x ∈ ss)
    (hu : ∀ y ∈ ss, y.url = x.url → y = x) : x ∈ values (dictOfList ss) :=
  List.mem_map.mpr ⟨(x.url, x), entry_mem_dictOfList hx hu, rfl⟩

lemma dictOfList_nodup_urls :
    ∀ {ss : List Song}, (ss.map Song.url).Nodup →
      dictOfList ss = ss.map (fun s => (s.url, s)) := by
  intro ss
  induction ss using List.reverseRecOn with
  | nil => intro _; rfl
  | append_singleton ss s ih =>
    intro hnd
    rw [List.map_append] at hnd
    have hnd1 : (ss.map Song.url).Nodup := (List.nodup_append.mp hnd).1
    have hdisj : s.url ∉ ss.map Song.url := by
      intro hmem
      exact (List.nodup_append.mp hnd).2.2 hmem (by simp)
    rw [dictOfList_append, ih hnd1]
    unfold dictInsert
    have hany : ((ss.map (fun s => (s.url, s))).any (fun q => q.1 == s.url)) = false := by
      rw [List.any_eq_false]
      intro q hq
      rcases List.mem_map.mp hq with ⟨t, ht, rfl⟩
      intro he
      exact hdisj ((eq_of_beq he) ▸ List.mem_map_of_mem Song.url ht)
    rw [if_neg (by simp [hany])]
    rw [List.map_append]
    rfl

lemma values_map_pair (ss : List Song) :
    values (ss.map (fun s => (s.url, s))) = ss := by
  unfold values
  rw [List.map_map]
  have hc : (Prod.snd ∘ fun s : Song => (s.url, s)) = id := rfl
  rw [hc, List.map_id]

/-! ### Lemmas about routing and the merge -/

lemma mem_dictKeys_dictInsert_left {u : String} {d : Dict} {k : String} {v : Song}
    (h : u ∈ dictKeys d) : u ∈ dictKeys (dictInsert d k v) := by
  unfold dictInsert
  by_cases hc : d.any (fun q => q.1 == k)
  · rw [if_pos hc]
    rcases List.mem_map.mp h with ⟨p, hp, rfl⟩
    by_cases hpk : (p.1 == k) = true
    · have : p.1 = k := eq_of_beq hpk
      refine List.mem_map.mpr ⟨(k, v), ?_, this.symm⟩
      exact List.mem_map.mpr ⟨p, hp, by rw [if_pos hpk]⟩
    · exact List.mem_map.mpr ⟨p, List.mem_map.mpr ⟨p, hp, by rw [if_neg hpk]⟩, rfl⟩
  · rw [if_neg hc]
    unfold dictKeys
    rw [List.map_append]
    exact List.mem_append_left _ h

lemma self_mem_dictKeys_dictInsert (d : Dict) (k : String) (v : Song) :
    k ∈ dictKeys (dictInsert d k v) := by
  unfold dictInsert
  by_cases hc : d.any (fun q => q.1 == k)
  · rw [if_pos hc]
    rcases List.any_eq_true.mp hc with ⟨q, hq, hqk⟩
    exact List.mem_map.mpr ⟨(k, v), List.mem_map.mpr ⟨q, hq, by rw [if_pos hqk]⟩, rfl⟩
  · rw [if_neg hc]
    unfold dictKeys
    rw [List.map_append]
    exact List.mem_append_right _ (by simp)

lemma routePerm_nil (f : List String) (p : Dict) : routePerm f p [] = p := rfl

lemma routePerm_cons (f : List String) (p : Dict) (s : Song) (rest : List Song) :
    routePerm f p (s :: rest) =
      routePerm f
        (if s.is_piano then dictInsert p s.url s
         else if s.is_video then p
         else if isFollowed f s then dictInsert p s.url s else p) rest := rfl

lemma mem_dictKeys_routePerm_left {u : String} {f : List String} :
    ∀ (scraped : List Song) (p : Dict), u ∈ dictKeys p →
      u ∈ dictKeys (routePerm f p scraped) := by
  intro scraped
  induction scraped with
  | nil => intro p h; exact h
  | cons s rest ih =>
    intro p h
    rw [routePerm_cons]
    by_cases h1 : s.is_piano = true
    · rw [if_pos h1]
      exact ih _ (mem_dictKeys_dictInsert_left h)
    · rw [if_neg h1]
      by_cases h2 : s.is_video = true
      · rw [if_pos h2]
        exact ih _ h
      · rw [if_neg h2]
        by_cases h3 : isFollowed f s = true
        · rw [if_pos h3]
          exact ih _ (mem_dictKeys_dictInsert_left h)
        · rw [if_neg h3]
          exact ih _ h

lemma piano_url_mem_routePerm {s0 : Song} {f : List String} :
    ∀ {scraped : List Song} (p : Dict), s0 ∈ scraped → s0.is_piano = true →
      s0.url ∈ dictKeys (routePerm f p scraped) := by
  intro scraped
  induction scraped with
  | nil => intro p h _; cases h
  | cons s rest ih =>
    intro p hmem hp
    rw [routePerm_cons]
    rcases List.mem_cons.mp hmem with rfl | hrest
    · rw [if_pos hp]
      exact mem_dictKeys_routePerm_left rest _ (self_mem_dictKeys_dictInsert p s0.url s0)
    · exact ih _ hrest hp

lemma route_foldl_eq (f : List String) :
    ∀ (scraped : List Song) (g v : List Song) (p : Dict),
      scraped.foldl
        (fun acc s =>
          if s.is_piano then (acc.1, acc.2.1, dictInsert acc.2.2 s.url s)
          else if s.is_video then (acc.1, acc.2.1 ++ [s], acc.2.2)
          else (acc.1 ++ [s], acc.2.1,
            if isFollowed f s then dictInsert acc.2.2 s.url s else acc.2.2))
        (g, v, p) =
      (g ++ scraped.filter (fun s => !s.is_piano && !s.is_video),
       v ++ scraped.filter (fun s => !s.is_piano && s.is_video),
       routePerm f p scraped) := by
  intro scraped
  induction scraped with
  | nil => intro g v p; simp [routePerm]
  | cons s rest ih =>
    intro g v p
    rw [List.foldl_cons, routePerm_cons]
    by_cases h1 : s.is_piano = true
    · simp only [if_pos h1]
      rw [ih]
      simp [List.filter_cons, h1]
    · simp only [if_neg h1]
      by_cases h2 : s.is_video = true
      · simp only [if_pos h2]
        rw [ih]
        have hb1 : (!s.is_piano && !s.is_video) = false := by
          simp [h2]
        have hb2 : (!s.is_piano && s.is_video) = true := by
          simp [h2]
          exact Bool.of_not_eq_true h1
        simp [List.filter_cons, hb1, hb2]

      · simp only [if_neg h2]
        rw [ih]
        have hb1 : (!s.is_piano && !s.is_video) = true := by
          simp
          exact ⟨Bool.of_not_eq_true h1, Bool.of_not_eq_true h2⟩
        have hb2 : (!s.is_piano && s.is_video) = false := by
          simp [h2]
        simp [List.filter_cons, hb1, hb2]

lemma route_eq (f : List String) (perm : Dict) (scraped : List Song) :
    route f perm scraped =
      (scraped.filter (fun s => !s.is_piano && !s.is_video),
       scraped.filter (fun s => !s.is_piano && s.is_video),
       routePerm f perm scraped) := by
  unfold route
  rw [route_foldl_eq]
  simp

lemma length_mergeStore_le (newSongs : List Song) (stored : Dict) (cap : Nat) :
    (mergeStore newSongs stored cap).length ≤ cap := by
  unfold mergeStore
  exact le_trans (length_dictOfList_le _) (List.length_take_le _ _)

lemma values_mergeStore_subset (newSongs : List Song) (stored : Dict) (cap : Nat) :
    values (mergeStore newSongs stored cap) ⊆ newSongs ++ values stored := by
  intro x hx
  have h1 : x ∈ (deduplicate_songs (newSongs ++ values stored)).take cap :=
    values_dictOfList_subset hx
  have h2 : x ∈ deduplicate_songs (newSongs ++ values stored) :=
    List.take_subset _ _ h1
  rw [deduplicate_songs_eq_go] at h2
  exact mem_of_mem_dedupGo h2

/-! ### The claims -/

/-- Claim C1: after every merge performed by the full-crawl cycle, the
general store contains at most 50 records and the video store at most 20,
for every pre-merge store content and every sequence of newly scraped
records. -/
theorem claim_C1_cap_invariant (st : CrawlerState) (scraped : List Song) :
    (mergeCycle st scraped).db_general.length ≤ 50 ∧
    (mergeCycle st scraped).db_video.length ≤ 20 :=
  ⟨length_mergeStore_le _ _ _, length_mergeStore_le _ _ _⟩

/-- Claim C2 (counterexample): the manual-add cycle is not idempotent on the
favorites list — adding a URL that is already listed changes the list
(the URL is appended unconditionally, src/main.py line 186). -/
theorem claim_C2_counterexample :
    "u" ∈ c2State.favorite_urls ∧
    (add_url_manually "2026-01-01" c2State c2Disk "u" (some c2Page)).2.1.favorite_urls ≠
      c2State.favorite_urls := by decide

/-- Claim C2 (amended): for every URL, the manual-add cycle appends that URL
to the favorites list unconditionally — even when the URL is already
listed — so the new favorites list (in memory and on disk) is always the
old list with the URL appended once more. -/
theorem claim_C2_always_appends (today : String) (st : CrawlerState) (disk : Disk)
    (url : String) (page : Page) :
    (add_url_manually today st disk url (some page)).2.1.favorite_urls =
      st.favorite_urls ++ [url] ∧
    (add_url_manually today st disk url (some page)).2.2.favorites_file =
      st.favorite_urls ++ [url] :=
  ⟨rfl, rfl⟩

/-- Claim C5: deduplication is stable and first-seen-wins — the output is
exactly the sequence of first occurrences of each (title, artist) key, in
input order, later records with an already-seen key being dropped. -/
theorem claim_C5_dedup_first_seen (xs : List Song) :
    deduplicate_songs xs = firstSeenSpec xs := by
  rw [deduplicate_songs_eq_go, dedupGo_eq_firstSeen]
  exact congrArg firstSeenSpec (List.filter_eq_self.mpr (by simp))

/-- Claim C6: when the fetch of the listing page fails, the full-crawl cycle
is a no-op — the three stores and the whole persisted state are unchanged. -/
theorem claim_C6_fetch_failure_noop (join : String → String → String)
    (today : String) (st : CrawlerState) (disk : Disk) :
    (scrape_all join today st disk none).2 = disk ∧
    (scrape_all join today st disk none).1.db_general = st.db_general ∧
    (scrape_all join today st disk none).1.db_video = st.db_video ∧
    (scrape_all join today st disk none).1.db_perm = st.db_perm :=
  ⟨rfl, rfl, rfl, rfl⟩

/-- Claim C8: deduplication is idempotent. -/
theorem claim_C8_dedup_idempotent (xs : List Song) :
    deduplicate_songs (deduplicate_songs xs) = deduplicate_songs xs := by
  rw [deduplicate_songs_eq_go, deduplicate_songs_eq_go]
  exact dedupGo_eq_self (by simp) (pairwise_keys_dedupGo xs [])

/-- Claim C4: a scraped record with `is_piano = true` is routed to the
permanent store (its URL becomes a key there) and never appears in the
general or video store after the merge, regardless of its other tags,
provided the pre-merge pipeline stores are piano-free (which every merge
maintains, both starting from empty). -/
theorem claim_C4_piano_priority (st : CrawlerState) (scraped : List Song) (s0 : Song)
    (hg : ∀ s ∈ values st.db_general, s.is_piano = false)
    (hv : ∀ s ∈ values st.db_video, s.is_piano = false)
    (hs : s0 ∈ scraped) (hp : s0.is_piano = true) :
    s0.url ∈ dictKeys (mergeCycle st scraped).db_perm ∧
    s0 ∉ values (mergeCycle st scraped).db_general ∧
    s0 ∉ values (mergeCycle st scraped).db_video ∧
    (∀ s ∈ values (mergeCycle st scraped).db_general, s.is_piano = false) ∧
    (∀ s ∈ values (mergeCycle st scraped).db_video, s.is_piano = false) := by
  have hr := route_eq st.followed_artists st.db_perm scraped
  have hperm : (mergeCycle st scraped).db_perm =
      routePerm st.followed_artists st.db_perm scraped := by
    show (route st.followed_artists st.db_perm scraped).2.2 = _
    rw [hr]
  have hgen : (mergeCycle st scraped).db_general =
      mergeStore (scraped.filter (fun s => !s.is_piano && !s.is_video)) st.db_general 50 := by
    show mergeStore (route st.followed_artists st.db_perm scraped).1 st.db_general 50 = _
    rw [hr]
  have hvid : (mergeCycle st scraped).db_video =
      mergeStore (scraped.filter (fun s => !s.is_piano && s.is_video)) st.db_video 20 := by
    show mergeStore (route st.followed_artists st.db_perm scraped).2.1 st.db_video 20 = _
    rw [hr]
  have hgenall : ∀ s ∈ values (mergeCycle st scraped).db_general, s.is_piano = false := by
    intro s hmem
    rw [hgen] at hmem
    rcases List.mem_append.mp (values_mergeStore_subset _ _ _ hmem) with h | h
    · have hb := List.of_mem_filter h
      rcases Bool.and_eq_true_iff.mp hb with ⟨hb1, _⟩
      cases hpi : s.is_piano
      · rfl
      · rw [hpi] at hb1
        cases hb1
    · exact hg s h
  have hvidall : ∀ s ∈ values (mergeCycle st scraped).db_video, s.is_piano = false := by
    intro s hmem
    rw [hvid] at hmem
    rcases List.mem_append.mp (values_mergeStore_subset _ _ _ hmem) with h | h
    · have hb := List.of_mem_filter h
      rcases Bool.and_eq_true_iff.mp hb with ⟨hb1, _⟩
      cases hpi : s.is_piano
      · rfl
      · rw [hpi] at hb1
        cases hb1
    · exact hv s h
  refine ⟨?_, ?_, ?_, hgenall, hvidall⟩
  · rw [hperm]
    exact piano_url_mem_routePerm _ hs hp
  · intro hmem
    rw [hgenall s0 hmem] at hp
    cases hp
  · intro hmem
    rw [hvidall s0 hmem] at hp
    cases hp

/-- Claim C4 witness: the concrete piano record `w4Song`, merged into empty
stores, lands in the permanent store and in neither pipeline store. -/
theorem claim_C4_piano_priority_witness :
    w4Song.url ∈ dictKeys (mergeCycle w4State [w4Song]).db_perm ∧
    w4Song ∉ values (mergeCycle w4State [w4Song]).db_general ∧
    w4Song ∉ values (mergeCycle w4State [w4Song]).db_video ∧
    (∀ s ∈ values (mergeCycle w4State [w4Song]).db_general, s.is_piano = false) ∧
    (∀ s ∈ values (mergeCycle w4State [w4Song]).db_video, s.is_piano = false) :=
  claim_C4_piano_priority w4State [w4Song] w4Song (by decide) (by decide)
    (by decide) (by decide)

set_option maxRecDepth 10000 in
/-- Claim C3 (counterexample): with 51 fresh general records (within the
100-item scrape cap) whose 51st shares (title, artist) with the stored
record `cxOld`, the merged store contains neither the stored record nor the
fresh one — the fresh record survives deduplication but is dropped by the
50-record truncation, refuting "the merged store contains the freshly
scraped record" for every store and every fresh sequence. -/
theorem claim_C3_counterexample :
    (cxNew ∈ cxNewList ∧ cxOld ∈ values cxStore ∧ keyOf cxOld = keyOf cxNew ∧
      cxOld ≠ cxNew) ∧
    cxNew ∉ values (mergeStore cxNewList cxStore 50) := by decide

/-- Claim C3 (amended): on a (title, artist) collision the stored record is
never in the merged store (the fresh record precedes it in the
deduplication input); the fresh record itself is in the merged store
provided it is the only fresh record with its key, at most 50 fresh
records are merged (so truncation cannot drop it), and no other input
record shares its URL. -/
theorem claim_C3_new_wins (newSongs : List Song) (stored : Dict) (recOld recNew : Song)
    (h1 : recNew ∈ newSongs)
    (h2 : ∀ s ∈ newSongs, keyOf s = keyOf recNew → s = recNew)
    (_h3 : recOld ∈ values stored)
    (h4 : keyOf recOld = keyOf recNew)
    (h5 : recOld ≠ recNew)
    (h6 : newSongs.length ≤ 50)
    (h7 : ∀ s ∈ newSongs ++ values stored, s.url = recNew.url → s = recNew) :
    recNew ∈ values (mergeStore newSongs stored 50) ∧
    recOld ∉ values (mergeStore newSongs stored 50) := by
  have hA : recNew ∈ dedupGo [] newSongs := first_mem_dedupGo (by simp) h1 h2
  have happ : dedupGo [] (newSongs ++ values stored) =
      dedupGo [] newSongs ++ dedupGo (seenUpd [] newSongs) (values stored) :=
    dedupGo_append _ _ _
  have hlenA : (dedupGo [] newSongs).length ≤ 50 :=
    le_trans (length_dedupGo_le _ _) h6
  have htake : (dedupGo [] (newSongs ++ values stored)).take 50 =
      dedupGo [] newSongs ++
        (dedupGo (seenUpd [] newSongs) (values stored)).take
          (50 - (dedupGo [] newSongs).length) := by
    rw [happ, List.take_append_eq_append_take, List.take_of_length_le hlenA]
  have hNewInTake : recNew ∈ (deduplicate_songs (newSongs ++ values stored)).take 50 := by
    rw [deduplicate_songs_eq_go, htake]
    exact List.mem_append_left _ hA
  have hUniq : ∀ y ∈ (deduplicate_songs (newSongs ++ values stored)).take 50,
      y.url = recNew.url → y = recNew := by
    intro y hy hyu
    have hy2 : y ∈ newSongs ++ values stored := by
      have hy1 := List.take_subset _ _ hy
      rw [deduplicate_songs_eq_go] at hy1
      exact mem_of_mem_dedupGo hy1
    exact h7 y hy2 hyu
  constructor
  · exact mem_values_dictOfList hNewInTake hUniq
  · intro hmem
    have hD : recOld ∈ (deduplicate_songs (newSongs ++ values stored)).take 50 :=
      values_dictOfList_subset hmem
    have hOldDedup : recOld ∈ dedupGo [] (newSongs ++ values stored) := by
      have := List.take_subset _ _ hD
      rwa [deduplicate_songs_eq_go] at this
    have hNewDedup : recNew ∈ dedupGo [] (newSongs ++ values stored) := by
      rw [happ]
      exact List.mem_append_left _ hA
    exact h5 (eq_of_mem_dedupGo_key hOldDedup hNewDedup h4)

/-- Claim C3 witness: one fresh record colliding with the single stored one;
the merge keeps the fresh record and drops the stored one. -/
theorem claim_C3_new_wins_witness :
    c3wNew ∈ values (mergeStore [c3wNew] c3wStore 50) ∧
    c3wOld ∉ values (mergeStore [c3wNew] c3wStore 50) :=
  claim_C3_new_wins [c3wNew] c3wStore c3wOld c3wNew (by decide) (by decide)
    (by decide) (by decide) (by decide) (by decide) (by decide)

/-- Claim C7: if the general store holds 50 records with pairwise distinct
(title, artist) keys and pairwise distinct URLs (also distinct from the new
record's), and one new record colliding with none of them is merged, the
resulting store has exactly 50 records, contains the new record, and the
last record of the pre-existing order — the oldest — is evicted. -/
theorem claim_C7_truncation_evicts_oldest (d : Dict) (nw oldrec : Song)
    (hlen : (values d).length = 50)
    (hkeys : ((values d).map keyOf).Nodup)
    (hurls : ((nw :: values d).map Song.url).Nodup)
    (hnk : keyOf nw ∉ (values d).map keyOf)
    (hlast : (values d).getLast? = some oldrec) :
    (mergeStore [nw] d 50).length = 50 ∧
    nw ∈ values (mergeStore [nw] d 50) ∧
    oldrec ∉ values (mergeStore [nw] d 50) := by
  have hne : values d ≠ [] := by
    intro h
    rw [h] at hlen
    simp at hlen
  have hkc : ((nw :: values d).map keyOf).Nodup := by
    rw [List.map_cons]
    exact List.nodup_cons.mpr ⟨hnk, hkeys⟩
  have hkp : (nw :: values d).Pairwise (fun a b => keyOf a ≠ keyOf b) :=
    List.pairwise_map.mp hkc
  have hded : dedupGo [] ([nw] ++ values d) = nw :: values d := by
    show dedupGo [] (nw :: values d) = nw :: values d
    exact dedupGo_eq_self (by simp) hkp
  have htk : (deduplicate_songs ([nw] ++ values d)).take 50 =
      nw :: (values d).take 49 := by
    rw [deduplicate_songs_eq_go, hded]
    show (nw :: values d).take (49 + 1) = nw :: (values d).take 49
    rw [List.take_succ_cons]
  have hDurl : ((nw :: (values d).take 49).map Song.url).Nodup := by
    have hsub : List.Sublist (nw :: (values d).take 49) (nw :: values d) :=
      List.Sublist.cons₂ _ (List.take_sublist _ _)
    exact List.Nodup.sublist (hsub.map Song.url) hurls
  have hMS : mergeStore [nw] d 50 =
      (nw :: (values d).take 49).map (fun s => (s.url, s)) := by
    unfold mergeStore
    rw [htk]
    exact dictOfList_nodup_urls hDurl
  have hvals : values (mergeStore [nw] d 50) = nw :: (values d).take 49 := by
    rw [hMS, values_map_pair]
  refine ⟨?_, ?_, ?_⟩
  · rw [hMS]
    simp [List.length_take, hlen]
  · rw [hvals]
    exact List.mem_cons_self _ _
  · rw [hvals]
    have hOldEq : oldrec = (values d).getLast hne := by
      have := List.getLast?_eq_getLast_of_ne_nil hne
      rw [hlast] at this
      exact Option.some.inj this
    have hOldMem : oldrec ∈ values d := hOldEq ▸ List.getLast_mem hne
    have hnwu : nw.url ∉ (values d).map Song.url := by
      have := List.nodup_cons.mp (by rw [List.map_cons] at hurls; exact hurls)
      exact this.1
    have hne2 : oldrec ≠ nw := by
      intro he
      exact hnwu (List.mem_map_of_mem Song.url (he ▸ hOldMem))
    have hvnd : (values d).Nodup :=
      List.Nodup.of_map Song.url
        (List.nodup_cons.mp (by rw [List.map_cons] at hurls; exact hurls)).2
    have htail : oldrec ∉ (values d).take 49 := by
      have hdl : (values d).take 49 = (values d).dropLast := by
        rw [List.dropLast_eq_take, hlen]
      rw [hdl]
      have hsplit := List.dropLast_append_getLast hne
      have hnd2 : ((values d).dropLast ++ [(values d).getLast hne]).Nodup := by
        rw [hsplit]
        exact hvnd
      intro hmem
      exact (List.nodup_append.mp hnd2).2.2 hmem
        (by rw [hOldEq]; exact List.mem_singleton.mpr rfl)
    intro hmem
    rcases List.mem_cons.mp hmem with he | hmem2
    · exact hne2 he
    · exact htail hmem2

set_option maxRecDepth 10000 in
/-- Claim C7 witness: a concrete 50-record store plus one fresh
non-colliding record. -/
theorem claim_C7_truncation_witness :
    (mergeStore [w7New] w7Dict 50).length = 50 ∧
    w7New ∈ values (mergeStore [w7New] w7Dict 50) ∧
    w7Song 49 ∉ values (mergeStore [w7New] w7Dict 50) :=
  claim_C7_truncation_evicts_oldest w7Dict w7New (w7Song 49) (by decide) (by decide)
    (by decide) (by decide) (by decide)

/-! ### Lookup lemmas for the dict-merge of `get_data_for_ui` -/

lemma dictLookup_cons (p : String × Song) (e : Dict) (u : String) :
    dictLookup (p :: e) u =
      if (p.1 == u) = true then some p.2 else dictLookup e u := by
  unfold dictLookup
  by_cases hp : (p.1 == u) = true
  · have hp2 : (fun q : String × Song => q.1 == u) p = true := hp
    rw [List.find?_cons_of_pos e hp2, if_pos hp]
    rfl
  · have hp2 : ¬((fun q : String × Song => q.1 == u) p = true) := hp
    rw [List.find?_cons_of_neg e hp2, if_neg hp]

lemma dictLookup_eq_none (d : Dict) (u : String) (h : u ∉ dictKeys d) :
    dictLookup d u = none := by
  unfold dictLookup
  rw [List.find?_eq_none.mpr ?_]
  · rfl
  · intro p hp hbeq
    exact h (List.mem_map.mpr ⟨p, hp, eq_of_beq hbeq⟩)

lemma dictLookup_append_left {e₁ : Dict} {u : String} {v : Song} (e₂ : Dict)
    (h : dictLookup e₁ u = some v) : dictLookup (e₁ ++ e₂) u = some v := by
  induction e₁ with
  | nil => simp [dictLookup] at h
  | cons p e₁ ih =>
    rw [List.cons_append, dictLookup_cons]
    rw [dictLookup_cons] at h
    by_cases hp : (p.1 == u) = true
    · rw [if_pos hp]
      rw [if_pos hp] at h
      exact h
    · rw [if_neg hp]
      rw [if_neg hp] at h
      exact ih h

lemma dictLookup_append_right {e₁ : Dict} {u : String} (e₂ : Dict)
    (h : dictLookup e₁ u = none) : dictLookup (e₁ ++ e₂) u = dictLookup e₂ u := by
  induction e₁ with
  | nil => rfl
  | cons p e₁ ih =>
    rw [List.cons_append, dictLookup_cons]
    rw [dictLookup_cons] at h
    by_cases hp : (p.1 == u) = true
    · rw [if_pos hp] at h
      cases h
    · rw [if_neg hp]
      rw [if_neg hp] at h
      exact ih h

lemma find_replace_ne (d : Dict) (k u : String) (v : Song) (hne : u ≠ k) :
    dictLookup (d.map (fun p => if p.1 == k then (k, v) else p)) u = dictLookup d u := by
  induction d with
  | nil => rfl
  | cons p d ih =>
    rw [List.map_cons, dictLookup_cons, dictLookup_cons]
    by_cases hpk : (p.1 == k) = true
    · rw [if_pos hpk]
      have hp1 : p.1 = k := eq_of_beq hpk
      have h1 : (((k, v) : String × Song).1 == u) = false := by
        simp only [beq_eq_false_iff_ne, ne_eq]
        exact fun h => hne h.symm
      have h2 : (p.1 == u) = false := by
        rw [hp1]
        simp only [beq_eq_false_iff_ne, ne_eq]
        exact fun h => hne h.symm
      rw [if_neg (by simp [h1]), if_neg (by simp [h2])]
      exact ih
    · rw [if_neg hpk]
      by_cases hpu : (p.1 == u) = true
      · rw [if_pos hpu, if_pos hpu]
      · rw [if_neg hpu, if_neg hpu]
        exact ih

lemma find_replace_hit (d : Dict) (k : String) (v : Song)
    (hc : d.any (fun q => q.1 == k) = true) :
    dictLookup (d.map (fun p => if p.1 == k then (k, v) else p)) k = some v := by
  induction d with
  | nil => simp at hc
  | cons p d ih =>
    rw [List.map_cons]
    by_cases hpk : (p.1 == k) = true
    · rw [if_pos hpk, dictLookup_cons]
      rw [if_pos (by simp : ((k, v).1 == k) = true)]
    · rw [if_neg hpk, dictLookup_cons, if_neg hpk]
      have hc2 : d.any (fun q => q.1 == k) = true := by
        rcases List.any_eq_true.mp hc with ⟨q, hq, hqk⟩
        rcases List.mem_cons.mp hq with rfl | hq2
        · exact absurd hqk hpk
        · exact List.any_eq_true.mpr ⟨q, hq2, hqk⟩
      exact ih hc2

lemma dictLookup_dictInsert (d : Dict) (k : String) (v : Song) (u : String) :
    dictLookup (dictInsert d k v) u = if u = k then some v else dictLookup d u := by
  unfold dictInsert
  by_cases hc : d.any (fun q => q.1 == k)
  · rw [if_pos hc]
    by_cases huk : u = k
    · rw [if_pos huk, huk]
      exact find_replace_hit d k v hc
    · rw [if_neg huk]
      exact find_replace_ne d k u v huk
  · rw [if_neg hc]
    by_cases huk : u = k
    · rw [if_pos huk]
      have hnone : dictLookup d u = none := by
        apply dictLookup_eq_none
        intro hmem
        rcases List.mem_map.mp hmem with ⟨p, hp, hp1⟩
        have : (p.1 == k) = true := beq_iff_eq.mpr (by rw [hp1, huk])
        exact hc (List.any_eq_true.mpr ⟨p, hp, this⟩)
      rw [dictLookup_append_right _ hnone, dictLookup_cons]
      rw [if_pos (beq_iff_eq.mpr huk.symm)]
    · rw [if_neg huk]
      cases hdl : dictLookup d u with
      | some v2 => exact dictLookup_append_left _ hdl
      | none =>
        rw [dictLookup_append_right _ hdl, dictLookup_cons]
        rw [if_neg (by simp; exact fun h => huk h.symm)]
        rfl

lemma dictExtend_append (d e : Dict) (p : String × Song) :
    dictExtend d (e ++ [p]) = dictInsert (dictExtend d e) p.1 p.2 := by
  unfold dictExtend
  rw [List.foldl_append]
  rfl

lemma dictKeys_append (e₁ e₂ : Dict) :
    dictKeys (e₁ ++ e₂) = dictKeys e₁ ++ dictKeys e₂ := List.map_append _ _ _

lemma dictLookup_isSome_of_mem_keys {e : Dict} {u : String} (h : u ∈ dictKeys e) :
    ∃ v, dictLookup e u = some v := by
  induction e with
  | nil => cases h
  | cons p e ih =>
    rw [dictLookup_cons]
    by_cases hp : (p.1 == u) = true
    · exact ⟨p.2, by rw [if_pos hp]⟩
    · rcases List.mem_cons.mp h with he | he
      · exact absurd (beq_iff_eq.mpr he.symm) hp
      · rcases ih he with ⟨v, hv⟩
        exact ⟨v, by rw [if_neg hp]; exact hv⟩

lemma dictLookup_dictExtend (e : Dict) :
    ∀ (d : Dict) (u : String), (dictKeys e).Nodup →
      dictLookup (dictExtend d e) u =
        if u ∈ dictKeys e then dictLookup e u else dictLookup d u := by
  induction e using List.reverseRecOn with
  | nil =>
    intro d u _
    rw [if_neg (by intro h; cases h)]
    rfl
  | append_singleton e p ih =>
    intro d u hnd
    rw [dictExtend_append, dictLookup_dictInsert]
    have hkeys : dictKeys (e ++ [p]) = dictKeys e ++ [p.1] := by
      rw [dictKeys_append]
      rfl
    rw [hkeys] at hnd
    have hnd1 : (dictKeys e).Nodup := (List.nodup_append.mp hnd).1
    have hp1 : p.1 ∉ dictKeys e := by
      intro hm
      exact (List.nodup_append.mp hnd).2.2 hm (List.mem_singleton.mpr rfl)
    by_cases huk : u = p.1
    · rw [if_pos huk]
      have hin : u ∈ dictKeys (e ++ [p]) := by
        rw [hkeys, huk]
        exact List.mem_append_right _ (List.mem_singleton.mpr rfl)
      rw [if_pos hin]
      have hnone : dictLookup e u = none := dictLookup_eq_none _ _ (huk ▸ hp1)
      rw [dictLookup_append_right _ hnone, dictLookup_cons]
      rw [if_pos (beq_iff_eq.mpr huk.symm)]
    · rw [if_neg huk]
      have hmemiff : u ∈ dictKeys (e ++ [p]) ↔ u ∈ dictKeys e := by
        rw [hkeys]
        simp [huk]
      rw [ih d u hnd1]
      by_cases hu : u ∈ dictKeys e
      · rw [if_pos hu, if_pos (hmemiff.mpr hu)]
        rcases dictLookup_isSome_of_mem_keys hu with ⟨v, hv⟩
        rw [hv, dictLookup_append_left _ hv]
      · rw [if_neg hu, if_neg (fun h => hu (hmemiff.mp h))]

/-- Claim C9: in the snapshot's merged `all_known` dict (general, then
video, then permanent, later entries overwriting earlier ones before the
favorites filter), a URL present in several stores resolves to the
permanent store's record; failing that to the video store's; failing that
to the general store's.  The stores have unique keys, as Python dicts do. -/
theorem claim_C9_favorites_precedence (st : CrawlerState) (u : String)
    (hg : (dictKeys st.db_general).Nodup)
    (hv : (dictKeys st.db_video).Nodup)
    (hp : (dictKeys st.db_perm).Nodup) :
    dictLookup (all_known st) u =
      if u ∈ dictKeys st.db_perm then dictLookup st.db_perm u
      else if u ∈ dictKeys st.db_video then dictLookup st.db_video u
      else dictLookup st.db_general u := by
  unfold all_known
  rw [dictLookup_dictExtend _ _ _ hp]
  by_cases h1 : u ∈ dictKeys st.db_perm
  · rw [if_pos h1, if_pos h1]
  · rw [if_neg h1, if_neg h1, dictLookup_dictExtend _ _ _ hv]
    by_cases h2 : u ∈ dictKeys st.db_video
    · rw [if_pos h2, if_pos h2]
    · rw [if_neg h2, if_neg h2, dictLookup_dictExtend _ _ _ hg]
      by_cases h3 : u ∈ dictKeys st.db_general
      · rw [if_pos h3]
      · rw [if_neg h3]
        rw [dictLookup_eq_none _ _ h3]
        rfl

/-- Claim C9 witness: three single-entry stores sharing the URL "u"; the
merged view resolves "u" to the permanent store's record. -/
theorem claim_C9_favorites_precedence_witness :
    dictLookup (all_known w9State) "u" =
      if "u" ∈ dictKeys w9State.db_perm then dictLookup w9State.db_perm "u"
      else if "u" ∈ dictKeys w9State.db_video then dictLookup w9State.db_video "u"
      else dictLookup w9State.db_general "u" :=
  claim_C9_favorites_precedence w9State "u" (by decide) (by decide) (by decide)

/-- Claim C10: whenever the extractor succeeds, the record's title is
non-empty: with no candidate segment left the title is "Unknown", and when
noise-stripping empties the candidate the title is the sentinel
"Unknown Song" — never the empty string. -/
theorem claim_C10_title_nonempty (join : String → String → String)
    (today baseUrl : String) (it : Item) (s : Song)
    (h : parse_song_item join today baseUrl it = some s) :
    s.title ≠ "" ∧
    (itemCleanParts it = [] → s.title = "Unknown") ∧
    (cleanTitle ((itemCleanParts it).headD "Unknown") = "" → s.title = "Unknown Song") := by
  have hst : s.title = titleOf it := by
    unfold parse_song_item at h
    cases hL : itemLink it with
    | none =>
      rw [hL] at h
      simp at h
    | some link =>
      rw [hL] at h
      have h2 := Option.some.inj h
      rw [← h2]
  unfold titleOf at hst
  by_cases hct : cleanTitle ((itemCleanParts it).headD "Unknown") = ""
  · rw [if_pos hct] at hst
    refine ⟨by rw [hst]; decide, ?_, fun _ => hst⟩
    intro hcp
    rw [hcp] at hct
    exact absurd hct (by decide)
  · rw [if_neg hct] at hst
    refine ⟨by rw [hst]; exact hct, ?_, fun hc => absurd hc hct⟩
    intro hcp
    rw [hcp] at hst
    rw [hst]
    decide

/-- Claim C10 witness: a concrete well-formed item; the extractor succeeds
and the resulting title is non-empty. -/
theorem claim_C10_title_nonempty_witness :
    w10Song.title ≠ "" ∧
    (itemCleanParts w10Item = [] → w10Song.title = "Unknown") ∧
    (cleanTitle ((itemCleanParts w10Item).headD "Unknown") = "" →
      w10Song.title = "Unknown Song") :=
  claim_C10_title_nonempty w10Join "2026-01-01" NEW_URL w10Item w10Song (by decide)

end Ufret
